import Mathlib

/-!
Verification of the hostname-checker worker.

The TypeScript sources are embedded shallowly: strings are processed at the
level of their character lists, the DNS-over-HTTPS transport and the Cloudflare
API probe are abstracted as explicit inputs (`DnsResponse` values, a
`ProbeResponse` value), and the D1 `hosts` table is a list of rows with the
schema's CHECK constraints made explicit.  JavaScript 32-bit integer
operations are modelled on `Nat` with explicit reduction modulo 2^32.
-/

/-- Models JavaScript `String.prototype.includes`: `jsIncludesList pat l` is
true when `pat` occurs as a contiguous run inside `l`. -/
def jsIncludesList (pat : List Char) : List Char → Bool
  | [] => pat.isEmpty
  | c :: rest => pat.isPrefixOf (c :: rest) || jsIncludesList pat rest

/-- `hay.includes(pat)` on strings. -/
def jsIncludes (hay pat : String) : Bool :=
  jsIncludesList pat.data hay.data

/-- Models JavaScript `String.prototype.toLowerCase` (the sources only compare
against ASCII patterns, so ASCII lowercasing is adequate). -/
def jsToLower (s : String) : String :=
  ⟨s.data.map Char.toLower⟩

/-- Split a character list at every separator character satisfying `p`,
keeping empty segments; `splitOnPred p []` is `[[]]`, matching JavaScript
`"".split(sep)` returning `[""]`. -/
def splitOnPred (p : Char → Bool) : List Char → List (List Char)
  | [] => [[]]
  | c :: rest =>
    if p c then [] :: splitOnPred p rest
    else
      match splitOnPred p rest with
      | [] => [[c]]
      | seg :: segs => (c :: seg) :: segs

/-- JavaScript `s.split('.')`-style splitting on a single character. -/
def splitOnChar (sep : Char) (l : List Char) : List (List Char) :=
  splitOnPred (fun c => c == sep) l

/-- The character class of the JavaScript `\s` regex escape (ASCII whitespace
plus the common Unicode space characters the sources could meet). -/
def isJsSpace (c : Char) : Bool :=
  c == ' ' || c == '\t' || c == '\n' || c == '\r' ||
  c == '\x0b' || c == '\x0c' || c == ' ' || c == '﻿'

/-- Models `s.split(/\s+/).filter(p => p.length > 0)`: splitting on a regex
run of whitespace and dropping empties gives the same segments as splitting on
each whitespace character and dropping empties. -/
def splitWS (l : List Char) : List (List Char) :=
  (splitOnPred isJsSpace l).filter (fun seg => !seg.isEmpty)

/-- Rejoin segments with a separator character; the inverse of `splitOnChar`. -/
def joinSep (sep : Char) : List (List Char) → List Char
  | [] => []
  | [seg] => seg
  | seg :: segs => seg ++ sep :: joinSep sep segs

/-- Value of a decimal digit string (callers guarantee every character is a
digit). -/
def parseDecDigits (l : List Char) : Nat :=
  l.foldl (fun acc c => acc * 10 + (c.toNat - 48)) 0

/-- Models JavaScript `parseInt(s, 10)`: parse the maximal leading run of
decimal digits, `none` (NaN) when there is none. -/
def parseIntDec (l : List Char) : Option Nat :=
  let ds := l.takeWhile Char.isDigit
  if ds.isEmpty then none else some (parseDecDigits ds)

/-- Hexadecimal value of one character, `none` when it is not a hex digit. -/
def hexVal (c : Char) : Option Nat :=
  if '0' ≤ c && c ≤ '9' then some (c.toNat - 48)
  else if 'a' ≤ c && c ≤ 'f' then some (c.toNat - 87)
  else if 'A' ≤ c && c ≤ 'F' then some (c.toNat - 55)
  else none

/-- The character class of the JavaScript `\w` regex escape. -/
def isWordChar (c : Char) : Bool :=
  c.isAlpha || c.isDigit || c == '_'

/-- Models the JavaScript regex `.` (any character except a line terminator). -/
def isDotChar (c : Char) : Bool :=
  !(c == '\n' || c == '\r')

/-- Models `hexBytes.match(/.{1,2}/g)`: cut a list into chunks of two, with a
final chunk of one when the length is odd. -/
def chunk2 : List Char → List (List Char)
  | [] => []
  | [a] => [[a]]
  | a :: b :: rest => [a, b] :: chunk2 rest

/-- Models `parseInt(chunk, 16)` on a one- or two-character chunk followed by
the `Uint8Array` element coercion (NaN becomes 0).  `parseInt` reads the
maximal leading run of hex digits; a chunk starting with a non-digit gives NaN
hence 0 (this also covers the `"0x"` chunk, which JavaScript strips to the
empty numeral, NaN, hence 0 as well). -/
def parseHexChunk : List Char → Nat
  | [a] => (hexVal a).getD 0
  | [a, b] =>
    match hexVal a, hexVal b with
    | some x, some y => 16 * x + y
    | some x, none => x
    | none, _ => 0
  | _ => 0

/-- The U+FFFD replacement character emitted by `TextDecoder` on malformed
input. -/
def replacementChar : Char := Char.ofNat 0xFFFD

/-- Is `b` a UTF-8 continuation byte? -/
def isContByte (b : Nat) : Bool := 128 ≤ b && b < 192

/-- Models `new TextDecoder().decode(bytes)`: standard UTF-8 decoding, with a
replacement character for a malformed leading byte (consuming one byte).
Surrogate and overlong checks are elided; the repository only ever decodes
ASCII tags and domain-name values.  The fuel argument (instantiated with the
list length, enough since every step consumes at least one byte) keeps the
recursion structural. -/
def utf8DecodeAux : Nat → List Nat → List Char
  | 0, _ => []
  | _, [] => []
  | fuel + 1, b :: rest =>
    if b < 128 then Char.ofNat b :: utf8DecodeAux fuel rest
    else if b < 194 then replacementChar :: utf8DecodeAux fuel rest
    else if b < 224 then
      match rest with
      | b1 :: rest1 =>
        if isContByte b1 then
          Char.ofNat ((b - 192) * 64 + (b1 - 128)) :: utf8DecodeAux fuel rest1
        else replacementChar :: utf8DecodeAux fuel (b1 :: rest1)
      | [] => [replacementChar]
    else if b < 240 then
      match rest with
      | b1 :: b2 :: rest2 =>
        if isContByte b1 && isContByte b2 then
          Char.ofNat ((b - 224) * 4096 + (b1 - 128) * 64 + (b2 - 128)) ::
            utf8DecodeAux fuel rest2
        else replacementChar :: utf8DecodeAux fuel (b1 :: b2 :: rest2)
      | [b1] => replacementChar :: utf8DecodeAux fuel [b1]
      | [] => [replacementChar]
    else if b < 245 then
      match rest with
      | b1 :: b2 :: b3 :: rest3 =>
        if isContByte b1 && isContByte b2 && isContByte b3 then
          Char.ofNat ((b - 240) * 262144 + (b1 - 128) * 4096 +
              (b2 - 128) * 64 + (b3 - 128)) :: utf8DecodeAux fuel rest3
        else replacementChar :: utf8DecodeAux fuel (b1 :: b2 :: b3 :: rest3)
      | [b1, b2] => replacementChar :: utf8DecodeAux fuel [b1, b2]
      | [b1] => replacementChar :: utf8DecodeAux fuel [b1]
      | [] => [replacementChar]
    else replacementChar :: utf8DecodeAux fuel rest

/-- UTF-8 decoding of a byte list. -/
def utf8DecodeList (bs : List Nat) : List Char :=
  utf8DecodeAux bs.length bs

/-- String wrapper for the byte-level UTF-8 decoder. -/
def utf8Decode (bs : List Nat) : String :=
  ⟨utf8DecodeList bs⟩

/-- One answer of the DNS-over-HTTPS JSON body (`DnsAnswer` in types.ts). -/
structure DnsAnswer where
  name : String
  type : Nat
  TTL : Nat
  data : String
deriving DecidableEq

/-- The fields of the DoH JSON body the embedded code reads (`DnsResponse` in
types.ts; `Answer` is optional in the wire format). -/
structure DnsResponse where
  Answer : Option (List DnsAnswer)
deriving DecidableEq

/-- A decoded CAA record (`ParsedCAA` in the sources).  When the text regex
matches a quoted empty value, the JavaScript `match[3] || match[4]` leaves the
field `undefined`; that corner is modelled as the empty string here (nothing
in the checked claims observes the difference inside the decoder). -/
structure ParsedCAA where
  critical : Bool
  tag : String
  value : String
deriving DecidableEq

/-- The RFC 3597 branch of `parseCAA` (src/src/handlers/hostHandler.ts):
split on whitespace, drop the `\#` marker and the length field, join the rest,
re-chunk into (up to) two-character hex bytes, then cut flags / tag length /
tag / value out of the byte sequence.  Returns the flags byte with the decoded
tag and value; `none` on the guarded failure paths. -/
def parseCAAHexData (data : List Char) : Option (Nat × String × String) :=
  let parts := splitWS data
  if parts.length < 3 then none
  else
    let hexBytes := (parts.drop 2).flatten
    let buffer := (chunk2 hexBytes).map parseHexChunk
    if buffer.length < 2 then none
    else
      let tagLen := (buffer.get? 1).getD 0
      if buffer.length < 2 + tagLen then none
      else
        some (buffer.headD 0,
          utf8Decode ((buffer.drop 2).take tagLen),
          utf8Decode ((buffer.drop 2).drop tagLen))

/-- The text branch of `parseCAA`: the regex
`/^(\d+)\s+(\w+)\s+(?:"(.*)"|(.*))$/` as a deterministic scan.  Digit, word
and whitespace classes are disjoint, so the regex engine's backtracking never
changes the maximal-run reading; the quoted alternative requires the remainder
to open and close with a quote (the greedy `.*` pairs the first quote with the
last one); `.` never crosses a line terminator. -/
def parseCAATextData (data : List Char) : Option (Nat × String × String) :=
  let (ds, r1) := data.span Char.isDigit
  if ds.isEmpty then none
  else
    let (ws1, r2) := r1.span isJsSpace
    if ws1.isEmpty then none
    else
      let (tag, r3) := r2.span isWordChar
      if tag.isEmpty then none
      else
        let (ws2, rest) := r3.span isJsSpace
        if ws2.isEmpty then none
        else if !rest.all isDotChar then none
        else
          match rest with
          | '"' :: t =>
            if t ≠ [] && t.getLast? == some '"' then
              some (parseDecDigits ds, ⟨tag⟩, ⟨t.dropLast⟩)
            else some (parseDecDigits ds, ⟨tag⟩, ⟨rest⟩)
          | _ => some (parseDecDigits ds, ⟨tag⟩, ⟨rest⟩)

/-- Embeds `parseCAA` from src/src/handlers/hostHandler.ts: `null` unless the
answer's type code is 257; the RFC 3597 hex branch is taken exactly when the
data opens with the `\#` escape marker, otherwise the text regex is tried;
both branches feed a flags value into `critical: !!(flags & 128)`. -/
def parseCAA (answer : DnsAnswer) : Option ParsedCAA :=
  if answer.type ≠ 257 then none
  else
    let parsed :=
      if ['\\', '#'].isPrefixOf answer.data.data then
        parseCAAHexData answer.data.data
      else parseCAATextData answer.data.data
    parsed.map (fun fv => ⟨(fv.1 &&& 128) ≠ 0, fv.2.1, fv.2.2⟩)

/-- The two-valued verdict stored per certificate authority. -/
inductive Permission where
  | allowed
  | not_allowed
deriving DecidableEq

/-- Embeds `checkCaaPermission` (src/src/handlers/hostHandler.ts and the
inlined `checkCaa` of src/src/workflow.ts): an empty record list is
`allowed`; otherwise `allowed` exactly when some record is tagged `issue` or
`issuewild` and its value contains the authority domain as a substring. -/
def checkCaaPermission (caaRecords : List ParsedCAA) (domain : String) : Permission :=
  if caaRecords.isEmpty then .allowed
  else if caaRecords.any (fun r =>
      (r.tag == "issue" || r.tag == "issuewild") && jsIncludes r.value domain) then
    .allowed
  else .not_allowed

/-- The three-valued hold status (the `likely` value exists only in the
workflow's zone-hold step; `checkZoneHold` itself is typed `'yes' | 'no'`). -/
inductive HoldStatus where
  | yes
  | no
  | likely
deriving DecidableEq

/-- The TEXT value the workflow binds into the `zone_hold` column. -/
def holdStatusToString : HoldStatus → String
  | .yes => "yes"
  | .no => "no"
  | .likely => "likely"

/-- Result record of `checkZoneHold` (`ZoneHoldResult` in the sources). -/
structure ZoneHoldResult where
  zone_hold : HoldStatus
  details : Option String
deriving DecidableEq

/-- One element of the `errors` array of a failed Cloudflare API response. -/
structure ApiError where
  message : String
  code : Nat
deriving DecidableEq

/-- The outcome of the custom-hostname creation request, abstracting the
`fetch`/JSON transport of `checkZoneHold`: a 2xx body with `success: true`
and a result id, a failure body carrying an error array, or a thrown
transport fault (the `catch` path). -/
inductive ProbeResponse where
  | success (id : String)
  | failure (errors : List ApiError)
  | transportError
deriving DecidableEq

/-- The per-error test of the expanded matching logic in `checkZoneHold`
(src/unnamed/part_002, the later revision of src/src/services/cloudflare.ts):
a hold is recognised when the lower-cased message contains one of four
substrings, or when the error code is 1010. -/
def errIndicatesHold (e : ApiError) : Bool :=
  jsIncludes (jsToLower e.message) "another account" ||
  jsIncludes (jsToLower e.message) "zone hold" ||
  jsIncludes (jsToLower e.message) "already exists" ||
  jsIncludes (jsToLower e.message) "is active" ||
  e.code == 1010

/-- `errors[0]?.message`. -/
def firstErrMessage (errors : List ApiError) : Option String :=
  errors.head?.map (fun e => e.message)

/-- JavaScript `x || fallback` on an optional string (both `undefined` and the
empty string are falsy). -/
def jsOrDefault (o : Option String) (fallback : String) : String :=
  match o with
  | some s => if s.isEmpty then fallback else s
  | none => fallback

/-- Embeds `checkZoneHold` (src/unnamed/part_002): missing credentials
short-circuit before the request is built; otherwise the creation probe runs
and its outcome is classified.  The second component records whether the
probe (a network call) was consulted. -/
def checkZoneHold (apiToken zoneId : String) (probe : ProbeResponse) :
    ZoneHoldResult × Bool :=
  if apiToken.isEmpty || zoneId.isEmpty then
    (⟨.no, some "Missing credentials"⟩, false)
  else
    match probe with
    | .success _ => (⟨.no, none⟩, true)
    | .failure errors =>
      if errors.any errIndicatesHold then
        (⟨.yes, firstErrMessage errors⟩, true)
      else
        (⟨.no, some (jsOrDefault (firstErrMessage errors) "Unknown error")⟩, true)
    | .transportError => (⟨.no, some "API Error"⟩, true)

/-- Modelled from the spec: `isCloudflareManaged` is imported by
src/src/workflow.ts and src/src/handlers/hostHandler.ts from
services/cloudflare.ts but is absent from the snapshot; the spec describes it
as "a simple suffix/substring test against known platform nameserver
domains". -/
def isCloudflareManaged (nameservers : List String) : Bool :=
  nameservers.any (fun ns => jsIncludes (jsToLower ns) "cloudflare.com")

/-- The `verification_method` values attached in the zone-hold step. -/
inductive VerificationMethod where
  | api
  | nameserver_inference
deriving DecidableEq

/-- The zone-hold step's serialisable output. -/
structure ZoneHoldOutcome where
  zone_hold : HoldStatus
  details : Option String
  verification_method : VerificationMethod
deriving DecidableEq

/-- The detail string the workflow attaches to an inferred hold. -/
def cfInferenceDetail : String :=
  "Domain uses Cloudflare nameservers - likely managed by another CF account"

/-- The branching of the `zone-hold-check` step (src/src/workflow.ts) after
the API check has been obtained: with Cloudflare-delegated nameservers a
confirmed `yes` is kept (method `api`) and anything else becomes an inferred
`likely`; otherwise the API result stands with method `api` (the result of
`checkZoneHold` never carries a `verification_method` of its own). -/
def zoneHoldDecide (isCfManaged : Bool) (apiCheck : ZoneHoldResult) :
    ZoneHoldOutcome :=
  if isCfManaged then
    if apiCheck.zone_hold = .yes then
      ⟨apiCheck.zone_hold, apiCheck.details, .api⟩
    else
      ⟨.likely, some cfInferenceDetail, .nameserver_inference⟩
  else
    ⟨apiCheck.zone_hold, apiCheck.details, .api⟩

/-- Embeds the whole `zone-hold-check` step of `HostCheckWorkflow.run`:
classify the nameservers, run `checkZoneHold`, and combine. -/
def zoneHoldStep (authNs : List String) (apiToken zoneId : String)
    (probe : ProbeResponse) : ZoneHoldOutcome :=
  zoneHoldDecide (isCloudflareManaged authNs) (checkZoneHold apiToken zoneId probe).1

/-- NS answers extracted from one DoH response:
`resp.Answer?.filter(a => a.type === 2).map(a => a.data) || []`. -/
def nsAnswers (resp : DnsResponse) : List String :=
  ((resp.Answer.getD []).filter (fun a => a.type == 2)).map (fun a => a.data)

/-- `hostname.split('.').slice(1).join('.')` — the parent domain used by the
single-level walk-up. -/
def parentDomain (hostname : String) : String :=
  ⟨joinSep '.' ((splitOnChar '.' hostname.data).drop 1)⟩

/-- Embeds `getAuthoritativeNameservers` (src/src/handlers/hostHandler.ts; the
`get-auth-ns` step of src/src/workflow.ts inlines the same logic).  The DNS
transport is abstracted as the function `dns` from a queried name to its NS
response.  The second component is the list of names queried, in order. -/
def getAuthoritativeNameservers (dns : String → DnsResponse) (hostname : String) :
    List String × List String :=
  let authNs := nsAnswers (dns hostname)
  if authNs.length == 0 then
    let parent := parentDomain hostname
    if !parent.isEmpty then
      (nsAnswers (dns parent), [hostname, parent])
    else (authNs, [hostname])
  else (authNs, [hostname])

/-- The fixed table of Cloudflare IPv4 edge ranges
(`CLOUDFLARE_IPV4` in src/src/services/cloudflare.ts). -/
def CLOUDFLARE_IPV4 : List String :=
  ["173.245.48.0/20",
   "103.21.244.0/22",
   "103.22.200.0/22",
   "103.31.4.0/22",
   "141.101.64.0/18",
   "108.162.192.0/18",
   "190.93.240.0/20",
   "188.114.96.0/20",
   "197.234.240.0/22",
   "198.41.128.0/17",
   "162.158.0.0/15",
   "104.16.0.0/13",
   "104.24.0.0/14",
   "172.64.0.0/13",
   "131.0.72.0/22"]

/-- Models JavaScript `Number(part)` on the strings produced by splitting an
address on dots: the empty string converts to 0, a run of decimal digits to
its value, anything else to NaN (`none`). -/
def jsNumber (l : List Char) : Option Nat :=
  if l.isEmpty then some 0
  else if l.all Char.isDigit then some (parseDecDigits l) else none

/-- ToInt32 on a missing (`undefined`) or NaN operand yields 0; the result is
kept as the unsigned residue modulo 2^32. -/
def octetValue (parts : List (Option Nat)) (i : Nat) : Nat :=
  match parts.get? i with
  | some (some v) => v
  | _ => 0

/-- Unsigned residue of a JavaScript 32-bit integer operation. -/
def js32 (n : Nat) : Nat := n % 4294967296

/-- `(p[0] << 24) | (p[1] << 16) | (p[2] << 8) | p[3]` over the split parts,
as in `ipInCidr`; each shift is a 32-bit operation. -/
def ipPartsToNum (parts : List (Option Nat)) : Nat :=
  js32 (octetValue parts 0 <<< 24) ||| js32 (octetValue parts 1 <<< 16) |||
    js32 (octetValue parts 2 <<< 8) ||| js32 (octetValue parts 3)

/-- `ip.split('.').map(Number)` followed by the shift-and-or combination. -/
def ipStrToNum (s : String) : Nat :=
  ipPartsToNum ((splitOnChar '.' s.data).map jsNumber)

/-- `~(2 ** (32 - bits) - 1)` as an unsigned 32-bit residue; a NaN prefix
length (`none`) makes the whole expression NaN, whose bitwise complement is
-1, i.e. all ones.  For `bits ≤ 32` this is `2^32 - 2^(32-bits)`; for larger
`bits` JavaScript's fractional power collapses to the same all-ones result
that truncated subtraction produces here. -/
def cidrMask (bits : Option Nat) : Nat :=
  match bits with
  | none => 4294967295
  | some b => 4294967296 - 2 ^ (32 - b)

/-- The mask of one CIDR table entry: `parseInt` of what follows the slash. -/
def cidrMaskOf (cidr : String) : Nat :=
  cidrMask (parseIntDec (((splitOnChar '/' cidr.data).get? 1).getD []))

/-- The network number of one CIDR table entry: the dotted part before the
slash, run through the same split/Number/shift pipeline as the probed
address. -/
def cidrNetOf (cidr : String) : Nat :=
  ipPartsToNum ((splitOnChar '.' ((splitOnChar '/' cidr.data).headD [])).map jsNumber)

/-- Embeds `ipInCidr` (src/src/services/cloudflare.ts):
`(ipNum & mask) === (rangeNum & mask)`. -/
def ipInCidr (ip cidr : String) : Bool :=
  (ipStrToNum ip &&& cidrMaskOf cidr) == (cidrNetOf cidr &&& cidrMaskOf cidr)

/-- Embeds `isCloudflareIp`: any address containing a colon is rejected
outright, otherwise the fixed table is scanned for a first match. -/
def isCloudflareIp (ip : String) : Bool :=
  if jsIncludes ip ":" then false
  else CLOUDFLARE_IPV4.any (fun cidr => ipInCidr ip cidr)

/-- One row of the D1 `hosts` table (schema in src/unnamed/part_001). -/
structure HostRow where
  hostname : String
  authoritative_ns : String
  is_proxied : String
  dns_type : String
  dns_result : String
  ssl_google : String
  ssl_ssl_com : String
  ssl_lets_encrypt : String
  zone_hold : String
  updated_at : Nat
deriving DecidableEq

/-- The CHECK constraints of the `hosts` schema; note that `zone_hold` admits
only `yes` and `no`. -/
def rowPassesChecks (r : HostRow) : Bool :=
  (r.is_proxied == "yes" || r.is_proxied == "no") &&
  (r.ssl_google == "allowed" || r.ssl_google == "not_allowed") &&
  (r.ssl_ssl_com == "allowed" || r.ssl_ssl_com == "not_allowed") &&
  (r.ssl_lets_encrypt == "allowed" || r.ssl_lets_encrypt == "not_allowed") &&
  (r.zone_hold == "yes" || r.zone_hold == "no")

/-- Semantics of the `save-to-db` statement
`INSERT INTO hosts ... ON CONFLICT(hostname) DO UPDATE SET <every column>`
over a table-as-list: the row with the same hostname is replaced in place
(every column taken from the excluded row), or the new row is appended when
the key is absent. -/
def upsertApply (table : List HostRow) (row : HostRow) : List HostRow :=
  if table.any (fun r => r.hostname == row.hostname) then
    table.map (fun r => if r.hostname == row.hostname then row else r)
  else table ++ [row]

/-- The statement as a whole: a CHECK-violating row makes it fail with the
table unchanged, otherwise the conflict-or-insert semantics above apply. -/
def upsertHost (table : List HostRow) (row : HostRow) : Option (List HostRow) :=
  if rowPassesChecks row then some (upsertApply table row) else none

/-- The key invariant of the `hosts` table: hostnames are pairwise distinct. -/
def uniqueHostnames (table : List HostRow) : Prop :=
  (table.map (fun r => r.hostname)).Nodup

/-- Claim-side predicate: does an error message contain (case-insensitively)
one of the hold indicators — exclusive ownership by another account, or the
resource already existing / being active? -/
def msgHasHoldIndicator (msg : String) : Bool :=
  jsIncludes (jsToLower msg) "another account" ||
  jsIncludes (jsToLower msg) "zone hold" ||
  jsIncludes (jsToLower msg) "already exists" ||
  jsIncludes (jsToLower msg) "is active"

/-- Claim-side (amended) per-error hold test: a matching message or the
numeric code 1010. -/
def errHoldIndicatorOrCode (e : ApiError) : Bool :=
  msgHasHoldIndicator e.message || e.code == 1010

/-- Does the CAA data open with the literal `\#` escape marker? -/
def caaEscapePrefix (data : String) : Bool :=
  ['\\', '#'].isPrefixOf data.data

/-- Is a whitespace-delimited token exactly two hex digits? -/
def isHexPairTok (t : List Char) : Bool :=
  t.length == 2 && t.all (fun c => (hexVal c).isSome)

/-- Byte value of a two-hex-digit token. -/
def hexPairVal (t : List Char) : Nat :=
  match t with
  | [a, b] => 16 * (hexVal a).getD 0 + (hexVal b).getD 0
  | _ => 0

/-- Claim-side byte sequence of a binary-encoded CAA value: every hex-byte
token after the escape marker and the length field. -/
def caaBytes (data : String) : List Nat :=
  ((splitWS data.data).drop 2).map hexPairVal

/-- The byte sequence the hex branch of `parseCAA` actually builds (join all
trailing fields, re-chunk in twos, parse each chunk). -/
def caaRawBytes (data : String) : List Nat :=
  (chunk2 ((splitWS data.data).drop 2).flatten).map parseHexChunk

/-- Claim-side well-formedness of the binary/generic CAA encoding: the data
opens with the escape marker, which is its own first whitespace-delimited
field, a length field follows, every remaining field is a two-hex-digit byte
token, there are at least two bytes, and the declared tag length fits. -/
def caaBinWellFormed (data : String) : Bool :=
  caaEscapePrefix data &&
  match splitWS data.data with
  | marker :: _ :: toks =>
    marker == ['\\', '#'] &&
    decide (2 ≤ toks.length) &&
    toks.all isHexPairTok &&
    decide (2 + (((toks.map hexPairVal).get? 1).getD 0) ≤ toks.length)
  | _ => false

/-- Claim-side validity of a dotted-decimal IPv4 string: exactly four
dot-separated fields, each a nonempty digit run of value at most 255. -/
def validIPv4 (s : String) : Bool :=
  match splitOnChar '.' s.data with
  | [a, b, c, d] =>
    [a, b, c, d].all (fun p =>
      !p.isEmpty && p.all Char.isDigit && decide (parseDecDigits p ≤ 255))
  | _ => false

/-- Claim-side 32-bit value of a dotted-decimal IPv4 string, first octet most
significant. -/
def ipv4Value (s : String) : Nat :=
  match splitOnChar '.' s.data with
  | [a, b, c, d] =>
    parseDecDigits a * 16777216 + parseDecDigits b * 65536 +
      parseDecDigits c * 256 + parseDecDigits d
  | _ => 0

/-- Claim-side network mask of a prefix length: `~(2^(32-prefixLen) - 1)` as
an unsigned 32-bit value. -/
def mask32 (prefixLen : Nat) : Nat := 4294967296 - 2 ^ (32 - prefixLen)

/-- Mask and masked network number of one CIDR entry as the embedded code
computes them. -/
def maskNetPairCode (cidr : String) : Nat × Nat :=
  (cidrMaskOf cidr, cidrNetOf cidr &&& cidrMaskOf cidr)

/-- Mask and masked network number of one CIDR entry as the claim states
them: split at the slash, decimal prefix length, dotted-quad network value
(first octet most significant).  The fallback for a slash-less string is an
unsatisfiable pair. -/
def maskNetPairSpec (cidr : String) : Nat × Nat :=
  match splitOnChar '/' cidr.data with
  | [net, bits] =>
    (mask32 (parseDecDigits bits), ipv4Value ⟨net⟩ &&& mask32 (parseDecDigits bits))
  | _ => (4294967295, 4294967296)

/-- Claim-side membership of a 32-bit address value in one CIDR range under
the stated mask. -/
def cidrSpecTest (v : Nat) (cidr : String) : Bool :=
  (v &&& (maskNetPairSpec cidr).1) == (maskNetPairSpec cidr).2

/-- Claim-side: the address value lies inside one of the fifteen fixed
ranges. -/
def inCloudflareRange (v : Nat) : Bool :=
  CLOUDFLARE_IPV4.any (fun cidr => cidrSpecTest v cidr)

/-- Searching for a single character is just membership. -/
theorem jsIncludesList_single (c : Char) (l : List Char) :
    jsIncludesList [c] l = decide (c ∈ l) := by
  induction l with
  | nil => simp [jsIncludesList]
  | cons d rest ih =>
    by_cases h : c = d
    · subst h
      simp [jsIncludesList, List.isPrefixOf]
    · simp [jsIncludesList, List.isPrefixOf, ih, h, Ne.symm h]

/-- `jsIncludesList` decides the contiguous-sublist relation. -/
theorem jsIncludesList_iff_contiguous (pat l : List Char) :
    jsIncludesList pat l = true ↔ pat <:+: l := by
  induction l with
  | nil =>
    simp [jsIncludesList, List.isEmpty_iff]
  | cons c rest ih =>
    simp [jsIncludesList, Bool.or_eq_true, List.isPrefixOf_iff_prefix, ih,
      List.infix_cons_iff]

/-- `splitOnPred` always yields at least one segment. -/
theorem splitOnPred_ne_nil (p : Char → Bool) (l : List Char) :
    splitOnPred p l ≠ [] := by
  induction l with
  | nil => simp [splitOnPred]
  | cons c rest ih =>
    by_cases h : p c
    · simp [splitOnPred, h]
    · simp only [splitOnPred, h, if_neg, Bool.false_eq_true, if_false]
      cases hs : splitOnPred p rest with
      | nil => exact absurd hs ih
      | cons seg segs => simp

/-- Prepending a character to the first segment commutes with rejoining. -/
theorem joinSep_cons_head (sep c : Char) (seg : List Char) (segs : List (List Char)) :
    joinSep sep ((c :: seg) :: segs) = c :: joinSep sep (seg :: segs) := by
  cases segs with
  | nil => simp [joinSep]
  | cons s ss => simp [joinSep]

/-- Rejoining undoes `splitOnChar`. -/
theorem joinSep_splitOnChar (sep : Char) (l : List Char) :
    joinSep sep (splitOnChar sep l) = l := by
  induction l with
  | nil => simp [splitOnChar, splitOnPred, joinSep]
  | cons c rest ih =>
    cases hs : splitOnPred (fun x => x == sep) rest with
    | nil => exact absurd hs (splitOnPred_ne_nil _ rest)
    | cons seg segs =>
      have ih2 : joinSep sep (seg :: segs) = rest := by
        rw [← ih]
        simp [splitOnChar, hs]
      by_cases h : c = sep
      · subst h
        simp only [splitOnChar, splitOnPred, beq_self_eq_true, if_true, hs]
        show [] ++ c :: joinSep c (seg :: segs) = c :: rest
        simpa using ih2
      · have hb : (c == sep) = false := by simp [h]
        simp only [splitOnChar, splitOnPred, hb, Bool.false_eq_true, if_false, hs]
        rw [joinSep_cons_head, ih2]

/-- Every character of a rejoined list is the separator or comes from one of
the segments. -/
theorem mem_joinSep (sep c : Char) (segs : List (List Char)) :
    c ∈ joinSep sep segs → c = sep ∨ ∃ seg ∈ segs, c ∈ seg := by
  induction segs with
  | nil => simp [joinSep]
  | cons seg rest ih =>
    cases rest with
    | nil =>
      intro h
      right
      exact ⟨seg, by simp, by simpa [joinSep] using h⟩
    | cons seg2 rest2 =>
      intro h
      simp only [joinSep, List.mem_append, List.mem_cons] at h
      rcases h with h | h | h
      · exact Or.inr ⟨seg, by simp, h⟩
      · exact Or.inl h
      · rcases ih h with h2 | ⟨s, hs, hc⟩
        · exact Or.inl h2
        · exact Or.inr ⟨s, by simp [hs], hc⟩

/-- Bitwise or of a shifted value and a low part below the shift is plain
addition. -/
theorem mul_pow_lor_eq_add (k q lo : Nat) (h : lo < 2 ^ k) :
    (2 ^ k * q) ||| lo = 2 ^ k * q + lo := by
  apply Nat.eq_of_testBit_eq
  intro j
  rw [Nat.testBit_lor, Nat.testBit_mul_pow_two_add q h j]
  have h0 : (2 ^ k * q).testBit j = if j < k then false else q.testBit (j - k) := by
    have hz := Nat.testBit_mul_pow_two_add q (b := 0)
      (Nat.pos_pow_of_pos k (by decide)) j
    simpa [Nat.zero_testBit] using hz
  rw [h0]
  by_cases hj : j < k
  · simp [hj]
  · have hlt : lo < 2 ^ j :=
      lt_of_lt_of_le h (Nat.pow_le_pow_right (by decide) (Nat.le_of_not_lt hj))
    simp [hj, Nat.testBit_lt_two_pow hlt]

/-- The shift-and-or combination of four octets equals the weighted sum. -/
theorem octets_lor_eq_sum (a b c d : Nat) (ha : a ≤ 255) (hb : b ≤ 255)
    (hc : c ≤ 255) (hd : d ≤ 255) :
    js32 (a <<< 24) ||| js32 (b <<< 16) ||| js32 (c <<< 8) ||| js32 d =
      a * 16777216 + b * 65536 + c * 256 + d := by
  have p24 : (2 : Nat) ^ 24 = 16777216 := by norm_num
  have p16 : (2 : Nat) ^ 16 = 65536 := by norm_num
  have p8 : (2 : Nat) ^ 8 = 256 := by norm_num
  have e1 : js32 (a <<< 24) = 16777216 * a := by
    rw [Nat.shiftLeft_eq, p24, js32, Nat.mod_eq_of_lt (by omega), Nat.mul_comm]
  have e2 : js32 (b <<< 16) = 65536 * b := by
    rw [Nat.shiftLeft_eq, p16, js32, Nat.mod_eq_of_lt (by omega), Nat.mul_comm]
  have e3 : js32 (c <<< 8) = 256 * c := by
    rw [Nat.shiftLeft_eq, p8, js32, Nat.mod_eq_of_lt (by omega), Nat.mul_comm]
  have e4 : js32 d = d := by
    rw [js32, Nat.mod_eq_of_lt (by omega)]
  rw [e1, e2, e3, e4]
  have s1 : (16777216 * a) ||| (65536 * b) = 16777216 * a + 65536 * b := by
    have := mul_pow_lor_eq_add 24 a (65536 * b) (by rw [p24]; omega)
    rwa [p24] at this
  rw [s1]
  have s2 : (16777216 * a + 65536 * b) ||| (256 * c) =
      16777216 * a + 65536 * b + 256 * c := by
    have h1 : 16777216 * a + 65536 * b = 2 ^ 16 * (256 * a + b) := by
      rw [p16]; ring
    have := mul_pow_lor_eq_add 16 (256 * a + b) (256 * c) (by rw [p16]; omega)
    rw [h1, this, p16]
  rw [s2]
  have s3 : (16777216 * a + 65536 * b + 256 * c) ||| d =
      16777216 * a + 65536 * b + 256 * c + d := by
    have h1 : 16777216 * a + 65536 * b + 256 * c = 2 ^ 8 * (65536 * a + 256 * b + c) := by
      rw [p8]; ring
    have := mul_pow_lor_eq_add 8 (65536 * a + 256 * b + c) d (by rw [p8]; omega)
    rw [h1, this, p8]
  rw [s3]
  ring

/-- `!!(flags & 128)` is exactly bit 7 of the flags value. -/
theorem and128_ne_zero_eq_testBit (n : Nat) :
    (decide ((n &&& 128) ≠ 0)) = n.testBit 7 := by
  have h : n &&& 128 = (n.testBit 7).toNat * 128 := by
    have := Nat.and_two_pow n 7
    norm_num at this
    exact this
  cases hb : n.testBit 7 <;> simp [h, hb]

/-- Re-chunking the concatenation of two-character tokens restores them. -/
theorem chunk2_flatten (toks : List (List Char))
    (h : ∀ t ∈ toks, t.length = 2) :
    chunk2 toks.flatten = toks := by
  induction toks with
  | nil => simp [chunk2]
  | cons t rest ih =>
    have ht : t.length = 2 := h t (by simp)
    match t, ht with
    | [a, b], _ =>
      simp only [List.flatten_cons, List.cons_append, List.nil_append, chunk2]
      exact congrArg _ (ih (fun t2 h2 => h t2 (by simp [h2])))

/-- On a genuine two-hex-digit token the chunk value is the byte value. -/
theorem parseHexChunk_eq_hexPairVal (t : List Char) (h : isHexPairTok t = true) :
    parseHexChunk t = hexPairVal t := by
  simp only [isHexPairTok, Bool.and_eq_true, beq_iff_eq] at h
  match t, h with
  | [a, b], ⟨_, hall⟩ =>
    have hall2 := List.all_eq_true.mp hall
    have ha : (hexVal a).isSome := by simpa using hall2 a (by simp)
    have hb : (hexVal b).isSome := by simpa using hall2 b (by simp)
    cases hva : hexVal a with
    | none => rw [hva] at ha; simp at ha
    | some x =>
      cases hvb : hexVal b with
      | none => rw [hvb] at hb; simp at hb
      | some y => simp [parseHexChunk, hexPairVal, hva, hvb]

/-- The conflict update rewrites a row in place, so the key column is
unchanged. -/
theorem replace_map_hostnames (t : List HostRow) (row : HostRow) :
    ((t.map (fun r => if r.hostname == row.hostname then row else r)).map
        (fun r => r.hostname)) = t.map (fun r => r.hostname) := by
  rw [List.map_map]
  apply List.map_congr_left
  intro r _
  by_cases h : (r.hostname == row.hostname) = true
  · simp only [Function.comp, h, if_true]
    exact ((beq_iff_eq ..).mp h).symm
  · simp only [Function.comp, h, Bool.false_eq_true, if_false]

/-- A list without the key is untouched by the conflict update and
contributes nothing after filtering on the key. -/
theorem no_match_map_filter (rest : List HostRow) (row : HostRow)
    (h : ∀ x ∈ rest, (x.hostname == row.hostname) = false) :
    ((rest.map (fun r => if r.hostname == row.hostname then row else r)).filter
        (fun r => r.hostname == row.hostname)) = [] := by
  induction rest with
  | nil => simp
  | cons x xs ih =>
    have hx := h x (by simp)
    simp only [List.map_cons, List.filter_cons, hx, Bool.false_eq_true, if_false]
    exact ih (fun y hy => h y (by simp [hy]))

/-- Under the key invariant, the conflict update leaves exactly one row with
the key, namely the fresh one. -/
theorem replace_filter_eq (t : List HostRow) (row : HostRow)
    (hu : uniqueHostnames t)
    (hin : t.any (fun r => r.hostname == row.hostname) = true) :
    ((t.map (fun r => if r.hostname == row.hostname then row else r)).filter
        (fun r => r.hostname == row.hostname)) = [row] := by
  induction t with
  | nil => simp at hin
  | cons r rest ih =>
    have hu2 : (rest.map (fun x => x.hostname)).Nodup := by
      have := hu
      simp only [uniqueHostnames, List.map_cons, List.nodup_cons] at this
      exact this.2
    have hrnotin : r.hostname ∉ rest.map (fun x => x.hostname) := by
      have := hu
      simp only [uniqueHostnames, List.map_cons, List.nodup_cons] at this
      exact this.1
    by_cases h : (r.hostname == row.hostname) = true
    · have hreq : r.hostname = row.hostname := (beq_iff_eq ..).mp h
      have hnone : ∀ x ∈ rest, (x.hostname == row.hostname) = false := by
        intro x hx
        by_contra hc
        have hxb : (x.hostname == row.hostname) = true := by
          cases hxe : (x.hostname == row.hostname) with
          | true => rfl
          | false => exact absurd hxe hc
        have : x.hostname = row.hostname := (beq_iff_eq ..).mp hxb
        exact hrnotin (by
          rw [hreq, ← this]
          exact List.mem_map_of_mem _ hx)
      simp only [List.map_cons, List.filter_cons, h, if_true, beq_self_eq_true]
      rw [no_match_map_filter rest row hnone]
    · simp only [List.map_cons, List.filter_cons, h, Bool.false_eq_true, if_false]
      have hin2 : rest.any (fun x => x.hostname == row.hostname) = true := by
        simp only [List.any_cons, h, Bool.false_or] at hin
        exact hin
      exact ih (by simpa [uniqueHostnames] using hu2) hin2

/-- Full behaviour of one successful upsert under the key invariant: the
invariant is preserved, exactly one row carries the key afterwards, and the
length grows only when the key was absent. -/
theorem upsertApply_spec (t : List HostRow) (row : HostRow)
    (hu : uniqueHostnames t) :
    uniqueHostnames (upsertApply t row) ∧
    ((upsertApply t row).filter (fun r => r.hostname == row.hostname) = [row]) ∧
    (t.any (fun r => r.hostname == row.hostname) = true →
      (upsertApply t row).length = t.length) ∧
    (t.any (fun r => r.hostname == row.hostname) = false →
      (upsertApply t row).length = t.length + 1) := by
  by_cases hany : t.any (fun r => r.hostname == row.hostname) = true
  · have happ : upsertApply t row =
        t.map (fun r => if r.hostname == row.hostname then row else r) := by
      simp [upsertApply, hany]
    refine ⟨?_, ?_, ?_, ?_⟩
    · rw [happ]
      unfold uniqueHostnames
      rw [replace_map_hostnames]
      exact hu
    · rw [happ]
      exact replace_filter_eq t row hu hany
    · intro _
      rw [happ, List.length_map]
    · intro hf
      rw [hany] at hf
      exact absurd hf (by simp)
  · have hanyf : t.any (fun r => r.hostname == row.hostname) = false := by
      cases he : t.any (fun r => r.hostname == row.hostname) with
      | true => exact absurd he hany
      | false => rfl
    have happ : upsertApply t row = t ++ [row] := by
      simp [upsertApply, hanyf]
    have hnomem : ∀ x ∈ t, (x.hostname == row.hostname) = false := by
      intro x hx
      have := List.any_eq_false.mp hanyf x hx
      cases he : (x.hostname == row.hostname) with
      | true => exact absurd he this
      | false => rfl
    refine ⟨?_, ?_, ?_, ?_⟩
    · rw [happ]
      unfold uniqueHostnames
      rw [List.map_append]
      apply List.Nodup.append hu (by simp)
      intro a ha hb
      simp only [List.map_cons, List.map_nil, List.mem_singleton] at hb
      rcases List.mem_map.mp ha with ⟨x, hx, hxa⟩
      have := hnomem x hx
      rw [hxa, hb] at this
      simp at this
    · rw [happ, List.filter_append]
      have h1 : t.filter (fun r => r.hostname == row.hostname) = [] := by
        rw [List.filter_eq_nil_iff]
        intro x hx
        simp [hnomem x hx]
      rw [h1]
      simp
    · intro hf
      rw [hanyf] at hf
      exact absurd hf (by simp)
    · intro _
      rw [happ]
      simp

/-- On a valid dotted-decimal address the code's split/Number/shift pipeline
computes the canonical most-significant-first 32-bit value. -/
theorem ipStrToNum_eq_ipv4Value (s : String) (h : validIPv4 s = true) :
    ipStrToNum s = ipv4Value s := by
  unfold validIPv4 at h
  split at h
  case h_2 => simp at h
  case h_1 a b c d heq =>
    simp only [List.all_cons, List.all_nil, Bool.and_eq_true, Bool.and_true,
      Bool.not_eq_true', decide_eq_true_eq] at h
    obtain ⟨⟨⟨hae, had⟩, hav⟩, ⟨⟨hbe, hbd⟩, hbv⟩, ⟨⟨hce, hcd⟩, hcv⟩, ⟨⟨hde, hdd⟩, hdv⟩⟩ := h
    have hja : jsNumber a = some (parseDecDigits a) := by
      simp [jsNumber, hae, had]
    have hjb : jsNumber b = some (parseDecDigits b) := by
      simp [jsNumber, hbe, hbd]
    have hjc : jsNumber c = some (parseDecDigits c) := by
      simp [jsNumber, hce, hcd]
    have hjd : jsNumber d = some (parseDecDigits d) := by
      simp [jsNumber, hde, hdd]
    unfold ipStrToNum ipv4Value
    rw [heq]
    simp only [List.map_cons, List.map_nil, hja, hjb, hjc, hjd]
    unfold ipPartsToNum octetValue
    simp only [List.get?_eq_getElem?, List.getElem?_cons_zero,
      List.getElem?_cons_succ]
    exact octets_lor_eq_sum _ _ _ _ hav hbv hcv hdv

/-- A valid dotted-decimal address contains no colon, so `isCloudflareIp`
reaches the table scan. -/
theorem validIPv4_no_colon (s : String) (h : validIPv4 s = true) :
    jsIncludes s ":" = false := by
  have hmem : ':' ∉ s.data := by
    intro hc
    unfold validIPv4 at h
    split at h
    case h_2 => simp at h
    case h_1 a b c d heq =>
      simp only [List.all_cons, List.all_nil, Bool.and_eq_true, Bool.and_true,
        Bool.not_eq_true', decide_eq_true_eq] at h
      have hjoin : joinSep '.' [a, b, c, d] = s.data := by
        rw [← heq]
        exact joinSep_splitOnChar '.' s.data
      rw [← hjoin] at hc
      rcases mem_joinSep '.' ':' [a, b, c, d] hc with hdot | ⟨seg, hseg, hcs⟩
      · exact absurd hdot (by decide)
      · have hdig : seg.all Char.isDigit = true := by
          simp only [List.mem_cons, List.not_mem_nil, or_false] at hseg
          rcases hseg with h1 | h1 | h1 | h1 <;> subst h1
          · exact h.1.1.2
          · exact h.2.1.1.2
          · exact h.2.2.1.1.2
          · exact h.2.2.2.1.2
        have := List.all_eq_true.mp hdig ':' hcs
        simp at this
  unfold jsIncludes
  have : (":" : String).data = [':'] := rfl
  rw [this, jsIncludesList_single]
  simpa using hmem

/-- The fifteen table entries parse to the same mask and masked network
number whether computed as the code does or as the claim states. -/
theorem cloudflare_pairs_agree :
    CLOUDFLARE_IPV4.map maskNetPairCode = CLOUDFLARE_IPV4.map maskNetPairSpec := by
  decide

/-- Scanning a table whose entries agree pairwise gives the same verdict for
the code's test and the claim's test. -/
theorem any_pair_bridge (v : Nat) (l : List String)
    (h : l.map maskNetPairCode = l.map maskNetPairSpec) :
    (l.any (fun cidr => (v &&& (maskNetPairCode cidr).1) == (maskNetPairCode cidr).2)) =
      (l.any (fun cidr => cidrSpecTest v cidr)) := by
  induction l with
  | nil => simp
  | cons cidr rest ih =>
    simp only [List.map_cons, List.cons.injEq] at h
    simp only [List.any_cons, cidrSpecTest, h.1, ih h.2]

/-- C1: when the authoritative nameservers are classified as
platform-managed, a probe result of `no` is overridden to
`{status: likely, verificationMethod: nameserver_inference}` and a probe
result of `yes` is kept as `{status: yes, verificationMethod: api}`; without
platform-managed delegation the probe result stands with method `api`. -/
theorem C1_zone_hold_override (authNs : List String) (apiToken zoneId : String)
    (probe : ProbeResponse) :
    (isCloudflareManaged authNs = true →
      (checkZoneHold apiToken zoneId probe).1.zone_hold = .no →
      zoneHoldStep authNs apiToken zoneId probe =
        ⟨.likely, some cfInferenceDetail, .nameserver_inference⟩) ∧
    (isCloudflareManaged authNs = true →
      (checkZoneHold apiToken zoneId probe).1.zone_hold = .yes →
      zoneHoldStep authNs apiToken zoneId probe =
        ⟨.yes, (checkZoneHold apiToken zoneId probe).1.details, .api⟩) ∧
    (isCloudflareManaged authNs = false →
      zoneHoldStep authNs apiToken zoneId probe =
        ⟨(checkZoneHold apiToken zoneId probe).1.zone_hold,
         (checkZoneHold apiToken zoneId probe).1.details, .api⟩) := by
  refine ⟨?_, ?_, ?_⟩
  · intro hm hno
    unfold zoneHoldStep zoneHoldDecide
    rw [hm]
    simp [hno]
  · intro hm hyes
    unfold zoneHoldStep zoneHoldDecide
    rw [hm]
    simp [hyes]
  · intro hm
    unfold zoneHoldStep zoneHoldDecide
    rw [hm]
    simp

/-- Witness for C1: a Cloudflare-delegated hostname with a successful probe
is reported `likely` by inference, and one whose probe error says the
hostname already exists is reported `yes` by the API. -/
theorem C1_zone_hold_override_witness :
    zoneHoldStep ["ns1.cloudflare.com"] "tok" "zone" (.success "id") =
      ⟨.likely, some cfInferenceDetail, .nameserver_inference⟩ ∧
    zoneHoldStep ["ns1.cloudflare.com"] "tok" "zone"
        (.failure [⟨"Hostname already exists", 1406⟩]) =
      ⟨.yes, some "Hostname already exists", .api⟩ := by
  constructor
  · exact (C1_zone_hold_override ["ns1.cloudflare.com"] "tok" "zone"
      (.success "id")).1 (by decide) (by decide)
  · have h := (C1_zone_hold_override ["ns1.cloudflare.com"] "tok" "zone"
      (.failure [⟨"Hostname already exists", 1406⟩])).2.1 (by decide) (by decide)
    rw [h]
    decide

/-- Counterexample to C2 as stated: an error whose message contains no
ownership/existence indicator but whose numeric code is 1010 is still
classified as a confirmed hold, so "yes iff some message contains an
indicator" fails. -/
theorem C2_probe_classification_cex :
    (checkZoneHold "token" "zone"
        (.failure [⟨"rate limited", 1010⟩])).1.zone_hold = HoldStatus.yes ∧
    msgHasHoldIndicator "rate limited" = false := by
  decide

/-- C2 (amended): with credentials present, a failed probe is classified
`yes` iff some error message contains an ownership/existence indicator or
some error carries code 1010; a `yes` keeps the first error message as
detail, and otherwise the result is `no` with the first error message (or
`Unknown error` when it is absent or empty) as detail. -/
theorem C2_probe_classification (apiToken zoneId : String)
    (errors : List ApiError) (ht : apiToken ≠ "") (hz : zoneId ≠ "") :
    ((checkZoneHold apiToken zoneId (.failure errors)).1.zone_hold = .yes ↔
      errors.any errHoldIndicatorOrCode = true) ∧
    (errors.any errHoldIndicatorOrCode = true →
      (checkZoneHold apiToken zoneId (.failure errors)).1 =
        ⟨.yes, firstErrMessage errors⟩) ∧
    (errors.any errHoldIndicatorOrCode = false →
      (checkZoneHold apiToken zoneId (.failure errors)).1 =
        ⟨.no, some (jsOrDefault (firstErrMessage errors) "Unknown error")⟩) := by
  have hte : apiToken.isEmpty = false := by
    cases he : apiToken.isEmpty with
    | true => exact absurd ((String.isEmpty_iff _).mp he) ht
    | false => rfl
  have hze : zoneId.isEmpty = false := by
    cases he : zoneId.isEmpty with
    | true => exact absurd ((String.isEmpty_iff _).mp he) hz
    | false => rfl
  have hind : errors.any errIndicatesHold = errors.any errHoldIndicatorOrCode := by
    induction errors with
    | nil => rfl
    | cons e rest ih =>
      simp only [List.any_cons, ih]
      have : errIndicatesHold e = errHoldIndicatorOrCode e := by
        simp [errIndicatesHold, errHoldIndicatorOrCode, msgHasHoldIndicator,
          Bool.or_assoc]
      rw [this]
  unfold checkZoneHold
  simp only [hte, hze, Bool.or_self, Bool.false_eq_true, if_false, hind]
  by_cases hany : errors.any errHoldIndicatorOrCode = true
  · simp [hany]
  · have hf : errors.any errHoldIndicatorOrCode = false := by
      cases he : errors.any errHoldIndicatorOrCode with
      | true => exact absurd he hany
      | false => rfl
    simp [hf]

/-- Witness for C2 (amended): an `already exists` message is a confirmed
hold with that message as detail. -/
theorem C2_probe_classification_witness :
    (checkZoneHold "tok" "zone"
        (.failure [⟨"Hostname already exists", 1406⟩])).1 =
      ⟨.yes, some "Hostname already exists"⟩ := by
  have h := (C2_probe_classification "tok" "zone"
      [⟨"Hostname already exists", 1406⟩] (by decide) (by decide)).2.1 (by decide)
  rw [h]
  decide

/-- Counterexample to C3 as stated: with both credentials missing and
Cloudflare-delegated nameservers, the zone-hold step reports `likely`
(by nameserver inference), not the claimed `no`. -/
theorem C3_missing_credentials_cex :
    isCloudflareManaged ["ns1.cloudflare.com"] = true ∧
    (zoneHoldStep ["ns1.cloudflare.com"] "" "" ProbeResponse.transportError).zone_hold
      = HoldStatus.likely ∧
    HoldStatus.likely ≠ HoldStatus.no := by
  decide

/-- C3 (amended): missing credentials short-circuit `checkZoneHold` to
`{status: no, detail: "Missing credentials"}` with no network call; that is
the final determination when the nameservers are not platform-managed, but
platform-managed nameservers still override it to
`{status: likely, verificationMethod: nameserver_inference}`. -/
theorem C3_missing_credentials (apiToken zoneId : String)
    (probe : ProbeResponse) (authNs : List String)
    (h : apiToken = "" ∨ zoneId = "") :
    checkZoneHold apiToken zoneId probe =
      (⟨.no, some "Missing credentials"⟩, false) ∧
    (isCloudflareManaged authNs = false →
      zoneHoldStep authNs apiToken zoneId probe =
        ⟨.no, some "Missing credentials", .api⟩) ∧
    (isCloudflareManaged authNs = true →
      zoneHoldStep authNs apiToken zoneId probe =
        ⟨.likely, some cfInferenceDetail, .nameserver_inference⟩) := by
  have hnil : ("" : String).isEmpty = true := rfl
  have he : (apiToken.isEmpty || zoneId.isEmpty) = true := by
    rcases h with h | h <;> subst h <;> simp [hnil]
  have hcz : checkZoneHold apiToken zoneId probe =
      (⟨.no, some "Missing credentials"⟩, false) := by
    unfold checkZoneHold
    rw [he]
    simp
  refine ⟨hcz, ?_, ?_⟩
  · intro hm
    unfold zoneHoldStep zoneHoldDecide
    rw [hm, hcz]
    simp
  · intro hm
    unfold zoneHoldStep zoneHoldDecide
    rw [hm, hcz]
    simp

/-- Witness for C3 (amended): empty credentials with non-platform
nameservers give the short-circuited result without a network call. -/
theorem C3_missing_credentials_witness :
    checkZoneHold "" "" ProbeResponse.transportError =
      (⟨.no, some "Missing credentials"⟩, false) ∧
    zoneHoldStep ["ns.example.org"] "" "" ProbeResponse.transportError =
      ⟨.no, some "Missing credentials", .api⟩ :=
  ⟨(C3_missing_credentials "" "" .transportError ["ns.example.org"]
      (Or.inl rfl)).1,
   (C3_missing_credentials "" "" .transportError ["ns.example.org"]
      (Or.inl rfl)).2.1 (by decide)⟩

/-- C4 is a code bug: the zone-hold step can produce `likely` (here via
Cloudflare-delegated nameservers), but the `hosts` schema's CHECK constraint
admits only `yes` and `no`, so the save-to-db insert of such a check fails
instead of persisting the row. -/
theorem C4_zone_hold_schema_bug :
    (zoneHoldStep ["ns1.cloudflare.com"] "" "" ProbeResponse.transportError).zone_hold
      = HoldStatus.likely ∧
    rowPassesChecks
      { hostname := "example.com", authoritative_ns := "ns1.cloudflare.com",
        is_proxied := "no", dns_type := "A", dns_result := "",
        ssl_google := "allowed", ssl_ssl_com := "allowed",
        ssl_lets_encrypt := "allowed",
        zone_hold := holdStatusToString HoldStatus.likely,
        updated_at := 0 } = false ∧
    upsertHost []
      { hostname := "example.com", authoritative_ns := "ns1.cloudflare.com",
        is_proxied := "no", dns_type := "A", dns_result := "",
        ssl_google := "allowed", ssl_ssl_com := "allowed",
        ssl_lets_encrypt := "allowed",
        zone_hold := holdStatusToString HoldStatus.likely,
        updated_at := 0 } = none ∧
    rowPassesChecks
      { hostname := "example.com", authoritative_ns := "ns1.cloudflare.com",
        is_proxied := "no", dns_type := "A", dns_result := "",
        ssl_google := "allowed", ssl_ssl_com := "allowed",
        ssl_lets_encrypt := "allowed",
        zone_hold := holdStatusToString HoldStatus.no,
        updated_at := 0 } = true := by
  decide

/-- C5: on a well-formed binary/generic CAA answer of type 257, `parseCAA`
returns the critical bit (bit 7 of byte 0), the UTF-8 decoding of the tag
bytes `[2, 2+N)` and of the value bytes `[2+N, end)`, where `N` is byte 1;
moreover any answer opening with the escape marker is handled by the binary
branch (the text regex is never consulted). -/
theorem C5_parse_caa_binary (ans : DnsAnswer) (htype : ans.type = 257)
    (hwf : caaBinWellFormed ans.data = true) :
    parseCAA ans = some
      ⟨((caaBytes ans.data).headD 0).testBit 7,
       utf8Decode (((caaBytes ans.data).drop 2).take
         (((caaBytes ans.data).get? 1).getD 0)),
       utf8Decode (((caaBytes ans.data).drop 2).drop
         (((caaBytes ans.data).get? 1).getD 0))⟩ ∧
    parseCAA ans = (parseCAAHexData ans.data.data).map
      (fun fv => ⟨decide ((fv.1 &&& 128) ≠ 0), fv.2.1, fv.2.2⟩) := by
  have hwf2 := hwf
  unfold caaBinWellFormed at hwf2
  rw [Bool.and_eq_true] at hwf2
  obtain ⟨hesc, hmatch⟩ := hwf2
  have hbranch : parseCAA ans = (parseCAAHexData ans.data.data).map
      (fun fv => ⟨decide ((fv.1 &&& 128) ≠ 0), fv.2.1, fv.2.2⟩) := by
    unfold parseCAA
    rw [htype]
    unfold caaEscapePrefix at hesc
    simp [hesc]
  refine ⟨?_, hbranch⟩
  split at hmatch
  case h_2 => simp at hmatch
  case h_1 marker lenF toks heq =>
    simp only [Bool.and_eq_true, beq_iff_eq, decide_eq_true_eq] at hmatch
    obtain ⟨⟨⟨hmark, htoks2⟩, hhex⟩, hfit⟩ := hmatch
    have hlen2 : ∀ t ∈ toks, t.length = 2 := by
      intro t ht
      have := List.all_eq_true.mp hhex t ht
      simp only [isHexPairTok, Bool.and_eq_true, beq_iff_eq] at this
      exact this.1
    have hmapeq : toks.map parseHexChunk = toks.map hexPairVal :=
      List.map_congr_left (fun t ht =>
        parseHexChunk_eq_hexPairVal t (List.all_eq_true.mp hhex t ht))
    have hbytes : caaBytes ans.data = toks.map hexPairVal := by
      unfold caaBytes
      rw [heq]
      rfl
    have hlenmap : (toks.map hexPairVal).length = toks.length := by simp
    have hhexdata : parseCAAHexData ans.data.data =
        some ((toks.map hexPairVal).headD 0,
          utf8Decode (((toks.map hexPairVal).drop 2).take
            (((toks.map hexPairVal).get? 1).getD 0)),
          utf8Decode (((toks.map hexPairVal).drop 2).drop
            (((toks.map hexPairVal).get? 1).getD 0))) := by
      unfold parseCAAHexData
      rw [heq]
      have hn1 : ¬ ((marker :: lenF :: toks).length < 3) := by
        simp only [List.length_cons]
        omega
      rw [if_neg hn1]
      dsimp only
      have hdrop : List.drop 2 (marker :: lenF :: toks) = toks := rfl
      rw [hdrop, chunk2_flatten toks hlen2, hmapeq]
      have hn2 : ¬ ((toks.map hexPairVal).length < 2) := by
        rw [hlenmap]
        omega
      rw [if_neg hn2]
      have hn3 : ¬ ((toks.map hexPairVal).length <
          2 + ((toks.map hexPairVal).get? 1).getD 0) := by
        rw [hlenmap]
        omega
      rw [if_neg hn3]
    rw [hbranch, hhexdata, hbytes]
    dsimp only [Option.map]
    rw [and128_ne_zero_eq_testBit]

/-- Witness for C5: a concrete RFC 3597 answer (flags 0, tag length 5, tag
`issue`) decodes through the binary branch. -/
theorem C5_parse_caa_binary_witness :
    parseCAA ⟨"example.com", 257, 300, "\\# 7 00 05 69 73 73 75 65"⟩ =
      some ⟨false, "issue", ""⟩ := by
  have h := (C5_parse_caa_binary
    ⟨"example.com", 257, 300, "\\# 7 00 05 69 73 73 75 65"⟩ rfl (by decide)).1
  rw [h]
  decide

/-- Counterexample to C6 as stated: binary data with an odd number of hex
digits (three) is not rejected — the trailing lone digit is parsed as a
one-digit byte and a record is returned, where the claim demands null. -/
theorem C6_parse_caa_total_cex :
    (((splitWS ("\\# 2 000").data).drop 2).flatten.length % 2 = 1) ∧
    parseCAA ⟨"example.com", 257, 300, "\\# 2 000"⟩ =
      some ⟨false, "", ""⟩ := by
  decide

/-- C6 (amended): `parseCAA` is total and returns null on a non-257 type
code, on binary data with fewer than two decoded bytes, on binary data whose
declared tag length exceeds the available bytes, and on text data the
flags/tag/value pattern does not match; an odd hex digit count alone is
tolerated (the lone trailing digit becomes a byte) rather than rejected. -/
theorem C6_parse_caa_total (ans : DnsAnswer) :
    (ans.type ≠ 257 → parseCAA ans = none) ∧
    (ans.type = 257 → caaEscapePrefix ans.data = true →
      (caaRawBytes ans.data).length < 2 → parseCAA ans = none) ∧
    (ans.type = 257 → caaEscapePrefix ans.data = true →
      2 ≤ (caaRawBytes ans.data).length →
      (caaRawBytes ans.data).length <
        2 + (((caaRawBytes ans.data).get? 1).getD 0) →
      parseCAA ans = none) ∧
    (ans.type = 257 → caaEscapePrefix ans.data = false →
      parseCAATextData ans.data.data = none → parseCAA ans = none) := by
  refine ⟨?_, ?_, ?_, ?_⟩
  · intro hne
    unfold parseCAA
    simp [hne]
  · intro htype hesc hshort
    unfold caaEscapePrefix at hesc
    unfold parseCAA
    rw [htype]
    simp only [ne_eq, not_true_eq_false, if_false, hesc, if_true, reduceCtorEq]
    unfold parseCAAHexData
    by_cases h3 : (splitWS ans.data.data).length < 3
    · rw [if_pos h3]
      rfl
    · rw [if_neg h3]
      dsimp only
      have hb : (List.map parseHexChunk
          (chunk2 (List.drop 2 (splitWS ans.data.data)).flatten)).length < 2 := by
        unfold caaRawBytes at hshort
        exact hshort
      rw [if_pos hb]
      rfl
  · intro htype hesc hlong hfit
    unfold caaEscapePrefix at hesc
    unfold parseCAA
    rw [htype]
    simp only [ne_eq, not_true_eq_false, if_false, hesc, if_true, reduceCtorEq]
    unfold parseCAAHexData
    by_cases h3 : (splitWS ans.data.data).length < 3
    · rw [if_pos h3]
      rfl
    · rw [if_neg h3]
      dsimp only
      have hb : ¬ ((List.map parseHexChunk
          (chunk2 (List.drop 2 (splitWS ans.data.data)).flatten)).length < 2) := by
        unfold caaRawBytes at hlong
        omega
      rw [if_neg hb]
      have hf : (List.map parseHexChunk
          (chunk2 (List.drop 2 (splitWS ans.data.data)).flatten)).length <
          2 + ((List.map parseHexChunk
            (chunk2 (List.drop 2 (splitWS ans.data.data)).flatten)).get? 1).getD 0 := by
        unfold caaRawBytes at hfit
        exact hfit
      rw [if_pos hf]
      rfl
  · intro htype hesc htext
    unfold caaEscapePrefix at hesc
    unfold parseCAA
    rw [htype]
    simp only [ne_eq, not_true_eq_false, if_false, hesc, Bool.false_eq_true,
      if_false, htext]
    rfl

/-- Witness for C6 (amended): a non-CAA answer decodes to null, and binary
data with a single byte is rejected. -/
theorem C6_parse_caa_total_witness :
    parseCAA ⟨"example.com", 1, 300, "0 issue x"⟩ = none ∧
    parseCAA ⟨"example.com", 257, 300, "\\# 1 00"⟩ = none :=
  ⟨(C6_parse_caa_total ⟨"example.com", 1, 300, "0 issue x"⟩).1 (by decide),
   (C6_parse_caa_total ⟨"example.com", 257, 300, "\\# 1 00"⟩).2.1 rfl
     (by decide) (by decide)⟩

/-- C7: an empty decoded record list yields `allowed`; a non-empty list
yields `allowed` exactly when some record is tagged `issue` or `issuewild`
with the authority domain contained in its value, and `not_allowed`
otherwise. -/
theorem C7_caa_policy (records : List ParsedCAA) (domain : String) :
    (records = [] → checkCaaPermission records domain = .allowed) ∧
    (records ≠ [] →
      (checkCaaPermission records domain = .allowed ↔
        ∃ r ∈ records, (r.tag = "issue" ∨ r.tag = "issuewild") ∧
          domain.data <:+: r.value.data)) ∧
    (records ≠ [] →
      ¬(∃ r ∈ records, (r.tag = "issue" ∨ r.tag = "issuewild") ∧
          domain.data <:+: r.value.data) →
      checkCaaPermission records domain = .not_allowed) := by
  have hkey : (records.any (fun r =>
      (r.tag == "issue" || r.tag == "issuewild") && jsIncludes r.value domain)
        = true) ↔
      ∃ r ∈ records, (r.tag = "issue" ∨ r.tag = "issuewild") ∧
        domain.data <:+: r.value.data := by
    rw [List.any_eq_true]
    constructor
    · rintro ⟨r, hr, hp⟩
      simp only [Bool.and_eq_true, Bool.or_eq_true, beq_iff_eq] at hp
      exact ⟨r, hr, hp.1, (jsIncludesList_iff_contiguous domain.data r.value.data).mp hp.2⟩
    · rintro ⟨r, hr, htag, hinf⟩
      refine ⟨r, hr, ?_⟩
      simp only [Bool.and_eq_true, Bool.or_eq_true, beq_iff_eq]
      exact ⟨htag, (jsIncludesList_iff_contiguous domain.data r.value.data).mpr hinf⟩
  refine ⟨?_, ?_, ?_⟩
  · intro h
    subst h
    rfl
  · intro hne
    have hne2 : records.isEmpty = false := by
      cases records with
      | nil => exact absurd rfl hne
      | cons a l => rfl
    by_cases hany : records.any (fun r =>
        (r.tag == "issue" || r.tag == "issuewild") && jsIncludes r.value domain) = true
    · have hres : checkCaaPermission records domain = .allowed := by
        unfold checkCaaPermission
        rw [hne2]
        simp [hany]
      rw [hres]
      exact iff_of_true rfl (hkey.mp hany)
    · have hf : records.any (fun r =>
          (r.tag == "issue" || r.tag == "issuewild") && jsIncludes r.value domain)
            = false := by
        cases he : records.any (fun r =>
            (r.tag == "issue" || r.tag == "issuewild") && jsIncludes r.value domain) with
        | true => exact absurd he hany
        | false => rfl
      have hres : checkCaaPermission records domain = .not_allowed := by
        unfold checkCaaPermission
        rw [hne2, hf]
        simp
      rw [hres]
      exact iff_of_false (by decide) (fun hex => absurd (hkey.mpr hex) (by simp [hf]))
  · intro hne hnex
    have hne2 : records.isEmpty = false := by
      cases records with
      | nil => exact absurd rfl hne
      | cons a l => rfl
    unfold checkCaaPermission
    rw [hne2]
    have hf : records.any (fun r =>
        (r.tag == "issue" || r.tag == "issuewild") && jsIncludes r.value domain)
          = false := by
      cases he : records.any (fun r =>
          (r.tag == "issue" || r.tag == "issuewild") && jsIncludes r.value domain) with
      | true => exact absurd (hkey.mp he) hnex
      | false => rfl
    rw [hf]
    simp

/-- Witness for C7: a lone `issue letsencrypt.org` record denies `pki.goog`,
and the empty record set allows it. -/
theorem C7_caa_policy_witness :
    checkCaaPermission [⟨false, "issue", "letsencrypt.org"⟩] "pki.goog" =
      .not_allowed ∧
    checkCaaPermission [] "pki.goog" = .allowed :=
  ⟨(C7_caa_policy [⟨false, "issue", "letsencrypt.org"⟩] "pki.goog").2.2
      (by simp) (by decide),
   (C7_caa_policy [] "pki.goog").1 rfl⟩

/-- Counterexample to C8 as stated: the hostname `a.` contains a dot and its
NS answer set is empty, yet no follow-up query is issued (only one name is
ever queried), because stripping the leftmost label leaves the empty parent. -/
theorem C8_ns_walkup_cex :
    nsAnswers ((fun _ => ⟨none⟩ : String → DnsResponse) "a.") = [] ∧
    ('.' ∈ "a.".data) ∧
    (getAuthoritativeNameservers (fun _ => ⟨none⟩) "a.").2 = ["a."] := by
  refine ⟨rfl, by decide, rfl⟩

/-- C8 (amended): the resolver queries NS for the hostname; exactly when that
answer set is empty and the parent obtained by stripping the leftmost label
is nonempty, one follow-up query for the parent is issued with no further
retry, and the returned sequence is whatever the last query yielded. -/
theorem C8_ns_walkup (dns : String → DnsResponse) (hostname : String) :
    (nsAnswers (dns hostname) ≠ [] →
      getAuthoritativeNameservers dns hostname =
        (nsAnswers (dns hostname), [hostname])) ∧
    (nsAnswers (dns hostname) = [] → parentDomain hostname ≠ "" →
      getAuthoritativeNameservers dns hostname =
        (nsAnswers (dns (parentDomain hostname)),
         [hostname, parentDomain hostname])) ∧
    (nsAnswers (dns hostname) = [] → parentDomain hostname = "" →
      getAuthoritativeNameservers dns hostname = ([], [hostname])) := by
  refine ⟨?_, ?_, ?_⟩
  · intro hne
    have hlen : ((nsAnswers (dns hostname)).length == 0) = false := by
      cases he : nsAnswers (dns hostname) with
      | nil => exact absurd he hne
      | cons a l => rfl
    unfold getAuthoritativeNameservers
    simp [hlen]
  · intro hemp hpar
    unfold getAuthoritativeNameservers
    rw [hemp]
    have hpe : (parentDomain hostname).isEmpty = false := by
      cases he : (parentDomain hostname).isEmpty with
      | true => exact absurd ((String.isEmpty_iff _).mp he) hpar
      | false => rfl
    simp [hpe]
  · intro hemp hpar
    unfold getAuthoritativeNameservers
    rw [hemp, hpar]
    rfl

/-- Witness for C8 (amended): with a resolver returning no answers, checking
`sub.example.com` issues exactly the two queries for the name and its
parent, returning the empty sequence. -/
theorem C8_ns_walkup_witness :
    getAuthoritativeNameservers (fun _ => ⟨none⟩) "sub.example.com" =
      ([], ["sub.example.com", "example.com"]) := by
  have h := (C8_ns_walkup (fun _ => ⟨none⟩) "sub.example.com").2.1 rfl (by decide)
  rw [h]
  rfl

/-- C9: every syntactically valid dotted-decimal IPv4 address whose 32-bit
value (first octet most significant) lies in one of the fifteen CIDR ranges
under the stated mask is classified as a proxy address; any string containing
a colon is rejected; and the address one below the first range's base (in no
other range) is rejected. -/
theorem C9_is_cloudflare_ip :
    (∀ s : String, validIPv4 s = true → inCloudflareRange (ipv4Value s) = true →
      isCloudflareIp s = true) ∧
    (∀ s : String, ':' ∈ s.data → isCloudflareIp s = false) ∧
    (isCloudflareIp "173.245.47.255" = false ∧
      ipv4Value "173.245.47.255" + 1 = ipv4Value "173.245.48.0" ∧
      cidrSpecTest (ipv4Value "173.245.48.0") "173.245.48.0/20" = true) := by
  refine ⟨?_, ?_, ?_⟩
  · intro s hv hr
    unfold isCloudflareIp
    rw [validIPv4_no_colon s hv]
    simp only [Bool.false_eq_true, if_false]
    have hfun : (fun cidr => ipInCidr s cidr) =
        (fun cidr => (ipv4Value s &&& (maskNetPairCode cidr).1) ==
          (maskNetPairCode cidr).2) := by
      funext cidr
      unfold ipInCidr maskNetPairCode
      rw [ipStrToNum_eq_ipv4Value s hv]
    rw [hfun, any_pair_bridge (ipv4Value s) CLOUDFLARE_IPV4 cloudflare_pairs_agree]
    exact hr
  · intro s hc
    unfold isCloudflareIp jsIncludes
    have hdata : (":" : String).data = [':'] := rfl
    rw [hdata, jsIncludesList_single]
    simp [hc]
  · decide

/-- Witness for C9: an address in the `104.16.0.0/13` range is recognised,
and an IPv6 literal is rejected. -/
theorem C9_is_cloudflare_ip_witness :
    isCloudflareIp "104.16.1.1" = true ∧ isCloudflareIp "1:2:3:4" = false :=
  ⟨C9_is_cloudflare_ip.1 "104.16.1.1" (by decide) (by decide),
   C9_is_cloudflare_ip.2.1 "1:2:3:4" (by decide)⟩

/-- C10: starting from a table satisfying the one-row-per-hostname invariant,
an upsert of a CHECK-passing row succeeds and preserves the invariant; a
second check of the same hostname overwrites every field of the stored row
(the filtered table holds exactly the fresh row, carrying its new
`updated_at`) and never appends — the length is unchanged. -/
theorem C10_upsert_unique (t : List HostRow) (r1 r2 : HostRow)
    (hu : uniqueHostnames t) (h1 : rowPassesChecks r1 = true)
    (h2 : rowPassesChecks r2 = true) (hh : r2.hostname = r1.hostname) :
    ∃ t1 t2, upsertHost t r1 = some t1 ∧ upsertHost t1 r2 = some t2 ∧
      uniqueHostnames t1 ∧ uniqueHostnames t2 ∧
      t1.filter (fun r => r.hostname == r1.hostname) = [r1] ∧
      t2.filter (fun r => r.hostname == r1.hostname) = [r2] ∧
      t2.length = t1.length := by
  obtain ⟨hu1, hf1, _, _⟩ := upsertApply_spec t r1 hu
  have hany : (upsertApply t r1).any (fun r => r.hostname == r2.hostname) = true := by
    have hmem1 : r1 ∈ (upsertApply t r1).filter (fun r => r.hostname == r1.hostname) := by
      rw [hf1]
      simp
    have hmem := List.mem_filter.mp hmem1
    exact List.any_eq_true.mpr ⟨r1, hmem.1, by rw [hh]; exact hmem.2⟩
  obtain ⟨hu2, hf2, hlen2, _⟩ := upsertApply_spec (upsertApply t r1) r2 hu1
  refine ⟨upsertApply t r1, upsertApply (upsertApply t r1) r2,
    ?_, ?_, hu1, hu2, hf1, ?_, ?_⟩
  · simp [upsertHost, h1]
  · simp [upsertHost, h2]
  · rw [← hh]
    exact hf2
  · exact hlen2 hany

/-- Witness for C10: two successive checks of `example.com` against the
empty store leave a single row holding the second check's fields and
timestamp. -/
theorem C10_upsert_unique_witness :
    ∃ t1 t2,
      upsertHost []
        ⟨"example.com", "ns.example.org", "no", "A", "1.2.3.4",
         "allowed", "allowed", "allowed", "no", 1000⟩ = some t1 ∧
      upsertHost t1
        ⟨"example.com", "ns.example.org", "yes", "A", "104.16.1.1",
         "allowed", "not_allowed", "allowed", "yes", 2000⟩ = some t2 ∧
      uniqueHostnames t1 ∧ uniqueHostnames t2 ∧
      t1.filter (fun r => r.hostname ==
        (⟨"example.com", "ns.example.org", "no", "A", "1.2.3.4",
          "allowed", "allowed", "allowed", "no", 1000⟩ : HostRow).hostname) =
        [⟨"example.com", "ns.example.org", "no", "A", "1.2.3.4",
          "allowed", "allowed", "allowed", "no", 1000⟩] ∧
      t2.filter (fun r => r.hostname ==
        (⟨"example.com", "ns.example.org", "no", "A", "1.2.3.4",
          "allowed", "allowed", "allowed", "no", 1000⟩ : HostRow).hostname) =
        [⟨"example.com", "ns.example.org", "yes", "A", "104.16.1.1",
          "allowed", "not_allowed", "allowed", "yes", 2000⟩] ∧
      t2.length = t1.length :=
  C10_upsert_unique []
    ⟨"example.com", "ns.example.org", "no", "A", "1.2.3.4",
     "allowed", "allowed", "allowed", "no", 1000⟩
    ⟨"example.com", "ns.example.org", "yes", "A", "104.16.1.1",
     "allowed", "not_allowed", "allowed", "yes", 2000⟩
    (by simp [uniqueHostnames]) (by decide) (by decide) rfl
